import Mathlib

/-!
Shallow embedding of `src/math/frustum.rs` (point_cloud_viewer), which defines
an off-axis perspective projection (`collision::Perspective`), a `Frustum`
holding a pair of 4×4 matrices (`clip_from_query`, `query_from_clip`), a point
containment predicate, and the polyhedral data (corners, edges, face normals)
consumed by a separating-axis test.

The generic scalar `S: RealField` is embedded as `ℝ`.

A crucial detail, preserved verbatim: `Perspective::new` names its entries in
column-major style (`c0r0`, `c0r1`, …, following cgmath) but passes them to
nalgebra's `Matrix4::new`, which takes its 16 arguments in ROW-major order.
Hence in the matrix actually stored, the value named `cXrY` sits at row `X`,
column `Y`: the stored matrix is the transpose of the standard perspective
matrix. The embedding below reproduces exactly that placement.

nalgebra library semantics used by the source (nalgebra is an external crate,
not part of this repository; modelled from its documented behaviour):
  * `Matrix4::new` takes entries in row-major order;
  * `m.transform_point(p)` computes `n = m[3,0..3]·p + m[3,3]` and returns
    `(A·p + t) / n` when `n ≠ 0`, else `A·p + t` without the divide, where
    `A = m[0..3,0..3]` and `t = m[0..3,3]`;
  * `m.try_inverse()` returns `Some` of the inverse exactly when the
    determinant is nonzero;
  * `Isometry3::inverse` maps `(R, t)` to `(Rᵀ, -(Rᵀ t))` and
    `to_homogeneous` builds the usual 4×4 homogeneous matrix;
  * `Unit::new_normalize(v) = v / ‖v‖` with the Euclidean norm;
  * `v.min()` / `v.max()` fold componentwise min / max.
-/

namespace PCV

abbrev Mat4 := Matrix (Fin 4) (Fin 4) ℝ
abbrev Mat3 := Matrix (Fin 3) (Fin 3) ℝ
abbrev Vec3 := Fin 3 → ℝ

/-- Rust `collision::Perspective<S>`: stores the forward 4×4 matrix. -/
structure Perspective where
  matrix : Mat4

/-- The matrix built by `Perspective::new` (frustum.rs lines 37–65).
The code computes the named values `cXrY` and hands them to nalgebra's
row-major `Matrix4::new`, so row `X` of the stored matrix is
`(cXr0, cXr1, cXr2, cXr3)`. -/
noncomputable def Perspective.newMatrix (l r b t n f : ℝ) : Mat4 :=
  !![2 * n / (r - l), 0, 0, 0;
     0, 2 * n / (t - b), 0, 0;
     (r + l) / (r - l), (t + b) / (t - b), -(f + n) / (f - n), -1;
     0, 0, -(2 * f * n) / (f - n), 0]

/-- Rust `Perspective::new` (frustum.rs lines 17–67). The three `assert!`s are
modelled as a guard: a panic is `none`, successful construction `some`. -/
noncomputable def Perspective.new (l r b t n f : ℝ) : Option Perspective :=
  if l ≤ r ∧ b ≤ t ∧ n ≤ f then some ⟨Perspective.newMatrix l r b t n f⟩ else none

/-- Rust `Perspective::new_fov` (frustum.rs lines 71–77):
`angle = 0.5 * fovy`, `ymax = near * tan angle`, `xmax = ymax * aspect`,
then delegates to `new(-xmax, xmax, -ymax, ymax, near, far)`. -/
noncomputable def Perspective.new_fov (fovy aspect n f : ℝ) : Option Perspective :=
  Perspective.new (-(n * Real.tan (0.5 * fovy) * aspect))
    (n * Real.tan (0.5 * fovy) * aspect)
    (-(n * Real.tan (0.5 * fovy)))
    (n * Real.tan (0.5 * fovy)) n f

/-- Rust `Perspective::as_matrix` (frustum.rs lines 79–81). -/
def Perspective.as_matrix (p : Perspective) : Mat4 := p.matrix

/-- Rust `Perspective::inverse` (frustum.rs lines 83–111): the analytic inverse.
nalgebra indexes `self.matrix[(i, j)]` as (row, column), and the result is
again assembled through row-major `Matrix4::new`, so row `X` of the result is
`(cXr0, cXr1, cXr2, cXr3)` in the code's naming. `.recip()` is `⁻¹`. -/
noncomputable def Perspective.inverse (p : Perspective) : Mat4 :=
  !![(p.matrix 0 0)⁻¹, 0, 0, 0;
     0, (p.matrix 1 1)⁻¹, 0, 0;
     0, 0, 0, (p.matrix 3 2)⁻¹;
     p.matrix 2 0 / p.matrix 0 0, p.matrix 2 1 / p.matrix 1 1, -1,
       p.matrix 2 2 / p.matrix 3 2]

/-- Linear (upper-left 3×3 block plus translation column) part of applying a
4×4 matrix to a 3D point, before any perspective divide. -/
noncomputable def linPart (m : Mat4) (p : Vec3) : Vec3 :=
  ![m 0 0 * p 0 + m 0 1 * p 1 + m 0 2 * p 2 + m 0 3,
    m 1 0 * p 0 + m 1 1 * p 1 + m 1 2 * p 2 + m 1 3,
    m 2 0 * p 0 + m 2 1 * p 1 + m 2 2 * p 2 + m 2 3]

/-- The homogeneous `w` component: bottom row applied to the point. -/
noncomputable def homW (m : Mat4) (p : Vec3) : ℝ :=
  m 3 0 * p 0 + m 3 1 * p 1 + m 3 2 * p 2 + m 3 3

/-- nalgebra's `Matrix4::transform_point`: perspective divide when the
homogeneous `w` is nonzero, no divide otherwise. -/
noncomputable def transformPoint (m : Mat4) (p : Vec3) : Vec3 :=
  if homW m p ≠ 0 then fun i => linPart m p i / homW m p else linPart m p

/-- Rust `contains_point` (frustum.rs lines 115–118): transform the point and test
that the componentwise min exceeds `-1` and the componentwise max is below
`1`. -/
noncomputable def containsPoint (m : Mat4) (p : Vec3) : Bool :=
  let q := transformPoint m p
  decide (-1 < min (q 0) (min (q 1) (q 2)) ∧ max (q 0) (max (q 1) (q 2)) < 1)

/-- Rust `nalgebra::Isometry3`: a rotation and a translation. The source constrains
the rotation part to be a unit quaternion; here it is a 3×3 matrix, with
orthogonality (`rot * rotᵀ = 1`) taken as a hypothesis where needed. -/
structure Iso3 where
  rot : Mat3
  trans : Vec3

/-- Rust `Isometry3::inverse`: `(R, t) ↦ (Rᵀ, -(Rᵀ t))`. -/
noncomputable def Iso3.inverse (p : Iso3) : Iso3 :=
  ⟨p.rot.transpose, fun i => -(p.rot.transpose.mulVec p.trans) i⟩

/-- Rust `Isometry3::to_homogeneous`: the usual homogeneous 4×4 matrix. -/
noncomputable def Iso3.toHomogeneous (p : Iso3) : Mat4 :=
  !![p.rot 0 0, p.rot 0 1, p.rot 0 2, p.trans 0;
     p.rot 1 0, p.rot 1 1, p.rot 1 2, p.trans 1;
     p.rot 2 0, p.rot 2 1, p.rot 2 2, p.trans 2;
     0, 0, 0, 1]

/-- The identity pose. -/
noncomputable def idIso : Iso3 := ⟨1, fun _ => 0⟩

/-- Rust `Frustum<S>` (frustum.rs lines 125–129). -/
structure Frustum where
  query_from_clip : Mat4
  clip_from_query : Mat4

/-- Rust `Frustum::new` (frustum.rs lines 132–139):
`clip_from_query = projection.as_matrix() * pose.inverse().to_homogeneous()`,
`query_from_clip = pose.to_homogeneous() * projection.inverse()`. -/
noncomputable def Frustum.new (query_from_eye : Iso3) (clip_from_eye : Perspective) :
    Frustum :=
  { clip_from_query := clip_from_eye.as_matrix * query_from_eye.inverse.toHomogeneous
    query_from_clip := query_from_eye.toHomogeneous * clip_from_eye.inverse }

open scoped Classical in
/-- Rust `Frustum::from_matrix4` (frustum.rs lines 142–148): `try_inverse` succeeds
exactly when the determinant is nonzero, in which case `query_from_clip` is the
inverse and `clip_from_query` the input. -/
noncomputable def Frustum.from_matrix4 (clip_from_query : Mat4) : Option Frustum :=
  if clip_from_query.det ≠ 0 then
    some ⟨clip_from_query⁻¹, clip_from_query⟩
  else none

/-- Rust `PointCulling::contains` for `Frustum` (frustum.rs lines 155–157). -/
noncomputable def Frustum.contains (fr : Frustum) (p : Vec3) : Bool :=
  containsPoint fr.clip_from_query p

/-- Rust `Frustum::compute_corners` (frustum.rs lines 164–176): the 8 clip-cube
vertices mapped by `query_from_clip.transform_point`, in the source's order. -/
noncomputable def Frustum.compute_corners (fr : Frustum) : Fin 8 → Vec3 :=
  ![transformPoint fr.query_from_clip ![-1, -1, -1],
    transformPoint fr.query_from_clip ![-1, -1, 1],
    transformPoint fr.query_from_clip ![-1, 1, -1],
    transformPoint fr.query_from_clip ![-1, 1, 1],
    transformPoint fr.query_from_clip ![1, -1, -1],
    transformPoint fr.query_from_clip ![1, -1, 1],
    transformPoint fr.query_from_clip ![1, 1, -1],
    transformPoint fr.query_from_clip ![1, 1, 1]]

/-- Euclidean normalization, `Unit::new_normalize`. -/
noncomputable def normalize (v : Vec3) : Vec3 :=
  fun i => v i / Real.sqrt (v 0 ^ 2 + v 1 ^ 2 + v 2 ^ 2)

/-- 3D cross product. -/
noncomputable def cross3 (a b : Vec3) : Vec3 :=
  ![a 1 * b 2 - a 2 * b 1, a 2 * b 0 - a 0 * b 2, a 0 * b 1 - a 1 * b 0]

/-- Rust `sat::Intersector`: corners, edges and face normals. The `ArrayVec`s are
modelled as lists, so their runtime lengths are facts, not types. -/
structure Intersector where
  corners : Fin 8 → Vec3
  edges : List Vec3
  face_normals : List Vec3

/-- Rust `Frustum::intersector` (frustum.rs lines 194–218), including the verbatim
repetition of `edges[1].cross(&edges[2])` for both the "Left side" and the
"right side" normal. -/
noncomputable def Frustum.intersector (fr : Frustum) : Intersector :=
  let corners := fr.compute_corners
  let e0 := normalize (corners 4 - corners 0)
  let e1 := normalize (corners 2 - corners 0)
  let e2 := normalize (corners 1 - corners 0)
  let e3 := normalize (corners 3 - corners 2)
  let e4 := normalize (corners 5 - corners 4)
  let e5 := normalize (corners 7 - corners 6)
  { corners := corners
    edges := [e0, e1, e2, e3, e4, e5]
    face_normals :=
      [normalize (cross3 e0 e1),   -- Front and back sides
       normalize (cross3 e0 e2),   -- Lower side
       normalize (cross3 e0 e3),   -- Upper side
       normalize (cross3 e1 e2),   -- Left side
       normalize (cross3 e1 e2)] } -- right side

/-- Rust `Frustum::compute_edges` (frustum.rs lines 178–184). -/
noncomputable def Frustum.compute_edges (fr : Frustum) : List Vec3 :=
  fr.intersector.edges

/-- Rust `Frustum::compute_face_normals` (frustum.rs lines 186–192). -/
noncomputable def Frustum.compute_face_normals (fr : Frustum) : List Vec3 :=
  fr.intersector.face_normals

/-- Spec-side definition: a genuine projective point transform, dividing every
component by the homogeneous `w` unconditionally ("transforming the point …
and performing the perspective divide"). To be compared with the source's
`transformPoint`. -/
noncomputable def projectivePoint (m : Mat4) (p : Vec3) : Vec3 :=
  fun i => linPart m p i / homW m p

/-- The 8 clip-cube vertices `(±1, ±1, ±1)` in the order used by
`compute_corners`. -/
noncomputable def clipVertices : Fin 8 → Vec3 :=
  ![![-1, -1, -1], ![-1, -1, 1], ![-1, 1, -1], ![-1, 1, 1],
    ![1, -1, -1], ![1, -1, 1], ![1, 1, -1], ![1, 1, 1]]

/-- Span (max minus min) of four scalars, used to compare the extents of the
near and far quadrilaterals of a frustum. -/
noncomputable def span4 (a b c d : ℝ) : ℝ :=
  max (max a b) (max c d) - min (min a b) (min c d)


/-! ## Helper lemmas -/

/-- The forward perspective matrix times its analytic inverse is the identity,
whenever the six plane parameters make the matrix invertible. -/
theorem perspMulInv (l r b t n f : ℝ) (h1 : l < r) (h2 : b < t) (h3 : n < f)
    (hn : n ≠ 0) (hf : f ≠ 0) :
    Perspective.newMatrix l r b t n f *
      Perspective.inverse ⟨Perspective.newMatrix l r b t n f⟩ = 1 := by
  have hrl : r - l ≠ 0 := sub_ne_zero_of_ne h1.ne'
  have htb : t - b ≠ 0 := sub_ne_zero_of_ne h2.ne'
  have hfn : f - n ≠ 0 := sub_ne_zero_of_ne h3.ne'
  ext i j
  fin_cases i <;> fin_cases j <;>
    simp [Perspective.newMatrix, Perspective.inverse, Matrix.mul_apply,
      Fin.sum_univ_four, Matrix.one_apply] <;>
    field_simp <;> ring

/-- The analytic inverse times the forward perspective matrix is the identity,
whenever the six plane parameters make the matrix invertible. -/
theorem perspInvMul (l r b t n f : ℝ) (h1 : l < r) (h2 : b < t) (h3 : n < f)
    (hn : n ≠ 0) (hf : f ≠ 0) :
    Perspective.inverse ⟨Perspective.newMatrix l r b t n f⟩ *
      Perspective.newMatrix l r b t n f = 1 :=
  Matrix.mul_eq_one_comm.mp (perspMulInv l r b t n f h1 h2 h3 hn hf)

/-- The homogeneous matrix of the inverse of a pose times the homogeneous
matrix of the pose is the identity, for an orthogonal rotation part. -/
theorem isoInvMulIso (p : Iso3) (h : p.rot * p.rot.transpose = 1) :
    p.inverse.toHomogeneous * p.toHomogeneous = 1 := by
  have h2 : p.rot.transpose * p.rot = 1 := Matrix.mul_eq_one_comm.mp h
  have key : ∀ i j : Fin 3,
      p.rot 0 i * p.rot 0 j + p.rot 1 i * p.rot 1 j + p.rot 2 i * p.rot 2 j
        = if i = j then 1 else 0 := by
    intro i j
    have hij := congrFun (congrFun h2 i) j
    simpa [Matrix.mul_apply, Fin.sum_univ_three, Matrix.transpose_apply,
      Matrix.one_apply] using hij
  have k00 := key 0 0; have k01 := key 0 1; have k02 := key 0 2
  have k10 := key 1 0; have k11 := key 1 1; have k12 := key 1 2
  have k20 := key 2 0; have k21 := key 2 1; have k22 := key 2 2
  simp [Fin.ext_iff] at k00 k01 k02 k10 k11 k12 k20 k21 k22
  ext i j
  fin_cases i <;> fin_cases j <;>
    simp [Iso3.inverse, Iso3.toHomogeneous, Matrix.mul_apply, Fin.sum_univ_four,
      Matrix.one_apply, Matrix.transpose_apply, Matrix.mulVec, Matrix.dotProduct,
      Fin.sum_univ_three] <;>
    first
      | ring1
      | linear_combination k00 | linear_combination k01 | linear_combination k02
      | linear_combination k10 | linear_combination k11 | linear_combination k12
      | linear_combination k20 | linear_combination k21 | linear_combination k22


/-- A successful `Perspective::new` stores exactly the analytic matrix. -/
theorem Perspective.new_some (l r b t n f : ℝ) (P : Perspective)
    (h : Perspective.new l r b t n f = some P) :
    P.matrix = Perspective.newMatrix l r b t n f := by
  by_cases hc : l ≤ r ∧ b ≤ t ∧ n ≤ f
  · simp [Perspective.new, hc] at h
    simp [← h]
  · simp [Perspective.new, hc] at h

theorem idIso_inv_hom : idIso.inverse.toHomogeneous = 1 := by
  ext i j
  fin_cases i <;> fin_cases j <;>
    simp [idIso, Iso3.inverse, Iso3.toHomogeneous, Matrix.one_apply,
      Matrix.transpose_one, Matrix.mulVec, Matrix.dotProduct, Fin.sum_univ_three,
      Matrix.vecHead, Matrix.vecTail]

theorem idIso_hom : idIso.toHomogeneous = 1 := by
  ext i j
  fin_cases i <;> fin_cases j <;>
    simp [idIso, Iso3.toHomogeneous, Matrix.one_apply, Matrix.vecHead, Matrix.vecTail]

/-! ## Claim theorems -/

/-- C1, counterexample: the claim quantifies over every Frustum built by
`Frustum::new` from a pose and a valid `Perspective`; the validity invariant
(spec §3, and the `assert!`s in the source) is only `left ≤ right`,
`bottom ≤ top`, `near ≤ far`. At `(-1, 1, -1, 1, 0, 1)` — which satisfies the
invariant, even strictly — `Perspective::new` succeeds, but `near = 0` makes
the stored forward matrix singular (its rows 0, 1 and 3 vanish), so for the
frustum built from it with the identity pose,
`clip_from_query * query_from_clip` is not the identity: its `(0,0)` entry is
`0`. -/
theorem C1_counterexample :
    Perspective.new (-1) 1 (-1) 1 0 1 =
      some ⟨Perspective.newMatrix (-1) 1 (-1) 1 0 1⟩ ∧
    ¬ ((Frustum.new idIso ⟨Perspective.newMatrix (-1) 1 (-1) 1 0 1⟩).clip_from_query *
        (Frustum.new idIso ⟨Perspective.newMatrix (-1) 1 (-1) 1 0 1⟩).query_from_clip
          = 1) := by
  refine ⟨by norm_num [Perspective.new], fun h => ?_⟩
  have hc : (Frustum.new idIso ⟨Perspective.newMatrix (-1) 1 (-1) 1 0 1⟩).clip_from_query
      = Perspective.newMatrix (-1) 1 (-1) 1 0 1 := by
    show Perspective.as_matrix _ * idIso.inverse.toHomogeneous = _
    rw [idIso_inv_hom, Matrix.mul_one]
    rfl
  have hq : (Frustum.new idIso ⟨Perspective.newMatrix (-1) 1 (-1) 1 0 1⟩).query_from_clip
      = Perspective.inverse ⟨Perspective.newMatrix (-1) 1 (-1) 1 0 1⟩ := by
    show idIso.toHomogeneous * _ = _
    rw [idIso_hom, Matrix.one_mul]
  rw [hc, hq] at h
  have h00 := congrFun (congrFun h 0) 0
  simp [Perspective.newMatrix, Perspective.inverse, Matrix.mul_apply,
    Fin.sum_univ_four, Matrix.one_apply] at h00

/-- C1 (amended): for every Frustum constructed either by `Frustum::new` from
a pose (orthogonal rotation part) and a `Perspective` whose parameters
additionally satisfy `left < right`, `bottom < top`, `near < far`, `near ≠ 0`
and `far ≠ 0` (so that the projection matrix is invertible), or by
`Frustum::from_matrix4` returning an instance, the matrix product
`clip_from_query * query_from_clip` is exactly the 4×4 identity (the
embedding works over exact reals, so the 1e-6 floating tolerance of the spec
is met exactly). -/
theorem C1_clip_query_mutual_inverse :
    (∀ (pose : Iso3) (l r b t n f : ℝ) (P : Perspective),
       pose.rot * pose.rot.transpose = 1 →
       Perspective.new l r b t n f = some P →
       l < r → b < t → n < f → n ≠ 0 → f ≠ 0 →
       (Frustum.new pose P).clip_from_query *
         (Frustum.new pose P).query_from_clip = 1) ∧
    (∀ (m : Mat4) (fr : Frustum), Frustum.from_matrix4 m = some fr →
       fr.clip_from_query * fr.query_from_clip = 1) := by
  constructor
  · intro pose l r b t n f P hrot hP h1 h2 h3 hn hf
    have hM : P.matrix = Perspective.newMatrix l r b t n f :=
      Perspective.new_some l r b t n f P hP
    have hPeta : P = ⟨Perspective.newMatrix l r b t n f⟩ := by
      cases P; simpa using hM
    subst hPeta
    show Perspective.newMatrix l r b t n f * pose.inverse.toHomogeneous *
        (pose.toHomogeneous * Perspective.inverse ⟨Perspective.newMatrix l r b t n f⟩) = 1
    rw [Matrix.mul_assoc, ← Matrix.mul_assoc pose.inverse.toHomogeneous,
      isoInvMulIso pose hrot, Matrix.one_mul]
    exact perspMulInv l r b t n f h1 h2 h3 hn hf
  · intro m fr h
    by_cases hd : m.det ≠ 0
    · simp [Frustum.from_matrix4, hd] at h
      rw [← h]
      exact Matrix.mul_nonsing_inv m (isUnit_iff_ne_zero.mpr hd)
    · simp [Frustum.from_matrix4, hd] at h

/-- Witness for C1 at a concrete pose and projection: the identity pose with
the perspective bounds `(-1, 1, -1, 1, 1, 2)`. -/
theorem C1_clip_query_mutual_inverse_witness :
    (Frustum.new idIso ⟨Perspective.newMatrix (-1) 1 (-1) 1 1 2⟩).clip_from_query *
      (Frustum.new idIso ⟨Perspective.newMatrix (-1) 1 (-1) 1 1 2⟩).query_from_clip = 1 :=
  C1_clip_query_mutual_inverse.1 idIso (-1) 1 (-1) 1 1 2
    ⟨Perspective.newMatrix (-1) 1 (-1) 1 1 2⟩
    (by simp [idIso])
    (by norm_num [Perspective.new])
    (by norm_num) (by norm_num) (by norm_num) (by norm_num) (by norm_num)

/-- C2, counterexample: the claim quantifies over all parameters with
`left < right`, `bottom < top`, `near < far`, but at
`(-1, 1, -1, 1, 0, 1)` — which satisfies all three — `near = 0` makes the
forward matrix singular (its first row and last row are zero), and the product
`inverse() * as_matrix()` is not the identity: its `(0,0)` entry is `0`. -/
theorem C2_counterexample :
    ((-1 : ℝ) < 1 ∧ (-1 : ℝ) < 1 ∧ (0 : ℝ) < 1) ∧
    ¬ (Perspective.inverse ⟨Perspective.newMatrix (-1) 1 (-1) 1 0 1⟩ *
        Perspective.newMatrix (-1) 1 (-1) 1 0 1 = 1) := by
  refine ⟨by norm_num, fun h => ?_⟩
  have h00 := congrFun (congrFun h 0) 0
  simp [Perspective.newMatrix, Perspective.inverse, Matrix.mul_apply,
    Fin.sum_univ_four, Matrix.one_apply] at h00

/-- C2 (amended): for every `(left, right, bottom, top, near, far)` with
`left < right`, `bottom < top`, `near < far`, and additionally `near ≠ 0` and
`far ≠ 0`, the matrix returned by `inverse()` multiplied with the forward
matrix returned by `as_matrix()` is exactly the 4×4 identity. -/
theorem C2_inverse_composed_identity (l r b t n f : ℝ) (P : Perspective)
    (hP : Perspective.new l r b t n f = some P)
    (h1 : l < r) (h2 : b < t) (h3 : n < f) (hn : n ≠ 0) (hf : f ≠ 0) :
    Perspective.inverse P * P.as_matrix = 1 := by
  have hM : P.matrix = Perspective.newMatrix l r b t n f :=
    Perspective.new_some l r b t n f P hP
  have hPeta : P = ⟨Perspective.newMatrix l r b t n f⟩ := by
    cases P; simpa using hM
  subst hPeta
  exact perspInvMul l r b t n f h1 h2 h3 hn hf

/-- Witness for the amended C2 at the asymmetric off-axis parameters
`(0.5, 1, -1, 1, 1, 2)`. -/
theorem C2_inverse_composed_identity_witness :
    Perspective.inverse ⟨Perspective.newMatrix 0.5 1 (-1) 1 1 2⟩ *
      Perspective.as_matrix ⟨Perspective.newMatrix 0.5 1 (-1) 1 1 2⟩ = 1 :=
  C2_inverse_composed_identity 0.5 1 (-1) 1 1 2
    ⟨Perspective.newMatrix 0.5 1 (-1) 1 1 2⟩
    (by norm_num [Perspective.new])
    (by norm_num) (by norm_num) (by norm_num) (by norm_num) (by norm_num)


/-- The perspective produced by `new_fov(1.2, 1.0, 0.1, 10.0)`:
`ymax = 0.1 * tan 0.6`, `xmax = ymax * 1`. -/
noncomputable def fovPerspective : Perspective :=
  ⟨Perspective.newMatrix (-(0.1 * Real.tan (0.5 * 1.2) * 1))
    (0.1 * Real.tan (0.5 * 1.2) * 1)
    (-(0.1 * Real.tan (0.5 * 1.2)))
    (0.1 * Real.tan (0.5 * 1.2)) 0.1 10⟩

theorem tan_half_fov_pos : 0 < Real.tan (0.5 * 1.2) := by
  have h1 : (0.5 * 1.2 : ℝ) < Real.pi / 2 := by
    have := Real.pi_gt_three
    linarith
  exact Real.tan_pos_of_pos_of_lt_pi_div_two (by norm_num) h1

theorem new_fov_eq : Perspective.new_fov 1.2 1 0.1 10 = some fovPerspective := by
  have ht := tan_half_fov_pos
  rw [Perspective.new_fov, Perspective.new, if_pos]
  · rfl
  · refine ⟨by nlinarith, by nlinarith, by norm_num⟩

/-- The matrix of `fovPerspective`, with the transcendental `tan` isolated. -/
theorem fov_matrix_eq :
    fovPerspective.matrix =
      !![1 / Real.tan (0.5 * 1.2), 0, 0, 0;
         0, 1 / Real.tan (0.5 * 1.2), 0, 0;
         0, 0, -(10.1 / 9.9), -1;
         0, 0, -(2 / 9.9), 0] := by
  have ht := tan_half_fov_pos
  ext i j
  fin_cases i <;> fin_cases j <;>
    simp [fovPerspective, Perspective.newMatrix, Matrix.vecHead, Matrix.vecTail] <;>
    ring1

/-- The analytic inverse of `fovPerspective`, concretely. -/
theorem fov_inverse_eq :
    Perspective.inverse fovPerspective =
      !![Real.tan (0.5 * 1.2), 0, 0, 0;
         0, Real.tan (0.5 * 1.2), 0, 0;
         0, 0, 0, -4.95;
         0, 0, -1, 5.05] := by
  have ht := tan_half_fov_pos
  ext i j
  fin_cases i <;> fin_cases j <;>
    simp [Perspective.inverse, fovPerspective, Perspective.newMatrix, Matrix.vecHead, Matrix.vecTail] <;>
    ring1

theorem fov_clip_eq :
    (Frustum.new idIso fovPerspective).clip_from_query = fovPerspective.matrix := by
  show fovPerspective.as_matrix * idIso.inverse.toHomogeneous = _
  rw [idIso_inv_hom, Matrix.mul_one]
  rfl

theorem fov_query_eq :
    (Frustum.new idIso fovPerspective).query_from_clip =
      Perspective.inverse fovPerspective := by
  show idIso.toHomogeneous * Perspective.inverse fovPerspective = _
  rw [idIso_hom, Matrix.one_mul]


/-- If the third transformed coordinate is at least 1, the point is not
contained. -/
theorem containsPoint_false_of_ge (m : Mat4) (p : Vec3)
    (h : 1 ≤ transformPoint m p 2) : containsPoint m p = false := by
  simp only [containsPoint]
  rw [decide_eq_false_iff_not]
  rintro ⟨-, h2⟩
  have hle : transformPoint m p 2 ≤
      max (transformPoint m p 0) (max (transformPoint m p 1) (transformPoint m p 2)) :=
    le_trans (le_max_right (transformPoint m p 1) (transformPoint m p 2))
      (le_max_right (transformPoint m p 0) (max (transformPoint m p 1) (transformPoint m p 2)))
  linarith

/-- C3 (code evaluation at the failing input): for the frustum from
`new_fov(1.2, 1.0, 0.1, 10.0)` with the identity pose, the point
`(0, 0, -5.05)` on the optical axis midway between near and far is NOT
contained: because `Perspective::new` feeds column-major-named entries to
nalgebra's row-major constructor, the stored matrix is the transpose of the
intended projection, and the transformed `z` clip coordinate of this point is
`41.105 / 10.1 ≈ 4.07`, outside `(-1, 1)`. The spec says the point is
contained. -/
theorem C3_center_point_not_contained :
    Perspective.new_fov 1.2 1 0.1 10 = some fovPerspective ∧
    (Frustum.new idIso fovPerspective).contains ![0, 0, -5.05] = false := by
  refine ⟨new_fov_eq, ?_⟩
  rw [Frustum.contains, fov_clip_eq, fov_matrix_eq]
  apply containsPoint_false_of_ge
  have hw : homW !![1 / Real.tan (0.5 * 1.2), 0, 0, 0;
      0, 1 / Real.tan (0.5 * 1.2), 0, 0;
      0, 0, -(10.1 / 9.9), -1;
      0, 0, -(2 / 9.9), 0] ![0, 0, -5.05] = 10.1 / 9.9 := by
    simp [homW, Matrix.vecHead, Matrix.vecTail]
    norm_num
  simp only [transformPoint, hw]
  rw [if_pos (by norm_num : (10.1 / 9.9 : ℝ) ≠ 0)]
  simp [linPart, Matrix.vecHead, Matrix.vecTail]
  norm_num

/-- The eight corners of the `new_fov(1.2, 1, 0.1, 10)` identity-pose frustum,
as transforms of the clip-cube vertices by the analytic inverse. -/
theorem fov_corners_eq :
    (Frustum.new idIso fovPerspective).compute_corners =
      ![transformPoint (Perspective.inverse fovPerspective) ![-1, -1, -1],
        transformPoint (Perspective.inverse fovPerspective) ![-1, -1, 1],
        transformPoint (Perspective.inverse fovPerspective) ![-1, 1, -1],
        transformPoint (Perspective.inverse fovPerspective) ![-1, 1, 1],
        transformPoint (Perspective.inverse fovPerspective) ![1, -1, -1],
        transformPoint (Perspective.inverse fovPerspective) ![1, -1, 1],
        transformPoint (Perspective.inverse fovPerspective) ![1, 1, -1],
        transformPoint (Perspective.inverse fovPerspective) ![1, 1, 1]] := by
  simp only [Frustum.compute_corners, fov_query_eq]

/-- First two coordinates of a point transformed by the analytic inverse of
`fovPerspective`. -/
theorem fov_corner_eval (x y z : ℝ) (hz : (5.05 : ℝ) - z ≠ 0) :
    transformPoint (Perspective.inverse fovPerspective) ![x, y, z] 0
        = Real.tan (0.5 * 1.2) * x / (5.05 - z) ∧
    transformPoint (Perspective.inverse fovPerspective) ![x, y, z] 1
        = Real.tan (0.5 * 1.2) * y / (5.05 - z) := by
  rw [fov_inverse_eq]
  have hw : homW !![Real.tan (0.5 * 1.2), 0, 0, 0;
      0, Real.tan (0.5 * 1.2), 0, 0;
      0, 0, 0, -4.95;
      0, 0, -1, 5.05] ![x, y, z] = 5.05 - z := by
    simp [homW, Matrix.vecHead, Matrix.vecTail]
    ring
  constructor <;>
    · simp only [transformPoint, hw]
      rw [if_pos hz]
      simp [linPart, Matrix.vecHead, Matrix.vecTail]

theorem span4_abab (a b : ℝ) : span4 a b a b = max a b - min a b := by
  simp [span4]

theorem span4_aabb (a b : ℝ) : span4 a a b b = max a b - min a b := by
  simp [span4]

theorem fov_c00 :
    (Frustum.new idIso fovPerspective).compute_corners 0 0
      = -(Real.tan (0.5 * 1.2) / 6.05) := by
  have h := (fov_corner_eval (-1) (-1) (-1) (by norm_num)).1
  rw [fov_corners_eq]
  show transformPoint (Perspective.inverse fovPerspective) ![-1, -1, -1] 0 = _
  rw [h]
  ring

theorem fov_c01 :
    (Frustum.new idIso fovPerspective).compute_corners 0 1
      = -(Real.tan (0.5 * 1.2) / 6.05) := by
  have h := (fov_corner_eval (-1) (-1) (-1) (by norm_num)).2
  rw [fov_corners_eq]
  show transformPoint (Perspective.inverse fovPerspective) ![-1, -1, -1] 1 = _
  rw [h]
  ring

theorem fov_c10 :
    (Frustum.new idIso fovPerspective).compute_corners 1 0
      = -(Real.tan (0.5 * 1.2) / 4.05) := by
  have h := (fov_corner_eval (-1) (-1) (1) (by norm_num)).1
  rw [fov_corners_eq]
  show transformPoint (Perspective.inverse fovPerspective) ![-1, -1, 1] 0 = _
  rw [h]
  ring

theorem fov_c11 :
    (Frustum.new idIso fovPerspective).compute_corners 1 1
      = -(Real.tan (0.5 * 1.2) / 4.05) := by
  have h := (fov_corner_eval (-1) (-1) (1) (by norm_num)).2
  rw [fov_corners_eq]
  show transformPoint (Perspective.inverse fovPerspective) ![-1, -1, 1] 1 = _
  rw [h]
  ring

theorem fov_c20 :
    (Frustum.new idIso fovPerspective).compute_corners 2 0
      = -(Real.tan (0.5 * 1.2) / 6.05) := by
  have h := (fov_corner_eval (-1) (1) (-1) (by norm_num)).1
  rw [fov_corners_eq]
  show transformPoint (Perspective.inverse fovPerspective) ![-1, 1, -1] 0 = _
  rw [h]
  ring

theorem fov_c21 :
    (Frustum.new idIso fovPerspective).compute_corners 2 1
      = Real.tan (0.5 * 1.2) / 6.05 := by
  have h := (fov_corner_eval (-1) (1) (-1) (by norm_num)).2
  rw [fov_corners_eq]
  show transformPoint (Perspective.inverse fovPerspective) ![-1, 1, -1] 1 = _
  rw [h]
  ring

theorem fov_c30 :
    (Frustum.new idIso fovPerspective).compute_corners 3 0
      = -(Real.tan (0.5 * 1.2) / 4.05) := by
  have h := (fov_corner_eval (-1) (1) (1) (by norm_num)).1
  rw [fov_corners_eq]
  show transformPoint (Perspective.inverse fovPerspective) ![-1, 1, 1] 0 = _
  rw [h]
  ring

theorem fov_c31 :
    (Frustum.new idIso fovPerspective).compute_corners 3 1
      = Real.tan (0.5 * 1.2) / 4.05 := by
  have h := (fov_corner_eval (-1) (1) (1) (by norm_num)).2
  rw [fov_corners_eq]
  show transformPoint (Perspective.inverse fovPerspective) ![-1, 1, 1] 1 = _
  rw [h]
  ring

theorem fov_c40 :
    (Frustum.new idIso fovPerspective).compute_corners 4 0
      = Real.tan (0.5 * 1.2) / 6.05 := by
  have h := (fov_corner_eval (1) (-1) (-1) (by norm_num)).1
  rw [fov_corners_eq]
  show transformPoint (Perspective.inverse fovPerspective) ![1, -1, -1] 0 = _
  rw [h]
  ring

theorem fov_c41 :
    (Frustum.new idIso fovPerspective).compute_corners 4 1
      = -(Real.tan (0.5 * 1.2) / 6.05) := by
  have h := (fov_corner_eval (1) (-1) (-1) (by norm_num)).2
  rw [fov_corners_eq]
  show transformPoint (Perspective.inverse fovPerspective) ![1, -1, -1] 1 = _
  rw [h]
  ring

theorem fov_c50 :
    (Frustum.new idIso fovPerspective).compute_corners 5 0
      = Real.tan (0.5 * 1.2) / 4.05 := by
  have h := (fov_corner_eval (1) (-1) (1) (by norm_num)).1
  rw [fov_corners_eq]
  show transformPoint (Perspective.inverse fovPerspective) ![1, -1, 1] 0 = _
  rw [h]
  ring

theorem fov_c51 :
    (Frustum.new idIso fovPerspective).compute_corners 5 1
      = -(Real.tan (0.5 * 1.2) / 4.05) := by
  have h := (fov_corner_eval (1) (-1) (1) (by norm_num)).2
  rw [fov_corners_eq]
  show transformPoint (Perspective.inverse fovPerspective) ![1, -1, 1] 1 = _
  rw [h]
  ring

theorem fov_c60 :
    (Frustum.new idIso fovPerspective).compute_corners 6 0
      = Real.tan (0.5 * 1.2) / 6.05 := by
  have h := (fov_corner_eval (1) (1) (-1) (by norm_num)).1
  rw [fov_corners_eq]
  show transformPoint (Perspective.inverse fovPerspective) ![1, 1, -1] 0 = _
  rw [h]
  ring

theorem fov_c61 :
    (Frustum.new idIso fovPerspective).compute_corners 6 1
      = Real.tan (0.5 * 1.2) / 6.05 := by
  have h := (fov_corner_eval (1) (1) (-1) (by norm_num)).2
  rw [fov_corners_eq]
  show transformPoint (Perspective.inverse fovPerspective) ![1, 1, -1] 1 = _
  rw [h]
  ring

theorem fov_c70 :
    (Frustum.new idIso fovPerspective).compute_corners 7 0
      = Real.tan (0.5 * 1.2) / 4.05 := by
  have h := (fov_corner_eval (1) (1) (1) (by norm_num)).1
  rw [fov_corners_eq]
  show transformPoint (Perspective.inverse fovPerspective) ![1, 1, 1] 0 = _
  rw [h]
  ring

theorem fov_c71 :
    (Frustum.new idIso fovPerspective).compute_corners 7 1
      = Real.tan (0.5 * 1.2) / 4.05 := by
  have h := (fov_corner_eval (1) (1) (1) (by norm_num)).2
  rw [fov_corners_eq]
  show transformPoint (Perspective.inverse fovPerspective) ![1, 1, 1] 1 = _
  rw [h]
  ring

/-- C5, counterexample: the claim groups corners 0–3 as the near face
(clip `z = -1`) and 4–7 as the far face, and asserts the former has strictly
smaller x-span. In the code's corner ordering, indices 0–3 are the clip
`x = -1` face (each contains two near and two far vertices), and for the
`new_fov(1.2, 1.0, 0.1, 10.0)` identity-pose frustum the x-spans of corners
0–3 and 4–7 are equal, hence not strictly smaller. -/
theorem C5_counterexample :
    Perspective.new_fov 1.2 1 0.1 10 = some fovPerspective ∧
    ¬ (span4 ((Frustum.new idIso fovPerspective).compute_corners 0 0)
          ((Frustum.new idIso fovPerspective).compute_corners 1 0)
          ((Frustum.new idIso fovPerspective).compute_corners 2 0)
          ((Frustum.new idIso fovPerspective).compute_corners 3 0)
        < span4 ((Frustum.new idIso fovPerspective).compute_corners 4 0)
          ((Frustum.new idIso fovPerspective).compute_corners 5 0)
          ((Frustum.new idIso fovPerspective).compute_corners 6 0)
          ((Frustum.new idIso fovPerspective).compute_corners 7 0)) := by
  have hT := tan_half_fov_pos
  have hab : Real.tan (0.5 * 1.2) / 6.05 < Real.tan (0.5 * 1.2) / 4.05 :=
    div_lt_div_of_pos_left hT (by norm_num) (by norm_num)
  refine ⟨new_fov_eq, ?_⟩
  rw [fov_c00, fov_c10, fov_c20, fov_c30, fov_c40, fov_c50, fov_c60, fov_c70,
    span4_abab, span4_abab,
    max_eq_left (neg_le_neg hab.le), min_eq_right (neg_le_neg hab.le),
    max_eq_right hab.le, min_eq_left hab.le]
  intro h
  linarith

/-- C5 (amended): for the `new_fov(1.2, 1.0, 0.1, 10.0)` identity-pose
frustum, the corners at indices `{0, 2, 4, 6}` are the images of the clip
`z = -1` vertices (the near face) and `{1, 3, 5, 7}` of the clip `z = +1`
vertices (the far face), and the near quadrilateral has strictly smaller span
in x and in y than the far quadrilateral. -/
theorem C5_near_far_spans :
    ((clipVertices 0 2 = -1 ∧ clipVertices 2 2 = -1 ∧
      clipVertices 4 2 = -1 ∧ clipVertices 6 2 = -1) ∧
     (clipVertices 1 2 = 1 ∧ clipVertices 3 2 = 1 ∧
      clipVertices 5 2 = 1 ∧ clipVertices 7 2 = 1)) ∧
    (span4 ((Frustum.new idIso fovPerspective).compute_corners 0 0)
        ((Frustum.new idIso fovPerspective).compute_corners 2 0)
        ((Frustum.new idIso fovPerspective).compute_corners 4 0)
        ((Frustum.new idIso fovPerspective).compute_corners 6 0)
      < span4 ((Frustum.new idIso fovPerspective).compute_corners 1 0)
        ((Frustum.new idIso fovPerspective).compute_corners 3 0)
        ((Frustum.new idIso fovPerspective).compute_corners 5 0)
        ((Frustum.new idIso fovPerspective).compute_corners 7 0)) ∧
    (span4 ((Frustum.new idIso fovPerspective).compute_corners 0 1)
        ((Frustum.new idIso fovPerspective).compute_corners 2 1)
        ((Frustum.new idIso fovPerspective).compute_corners 4 1)
        ((Frustum.new idIso fovPerspective).compute_corners 6 1)
      < span4 ((Frustum.new idIso fovPerspective).compute_corners 1 1)
        ((Frustum.new idIso fovPerspective).compute_corners 3 1)
        ((Frustum.new idIso fovPerspective).compute_corners 5 1)
        ((Frustum.new idIso fovPerspective).compute_corners 7 1)) := by
  have hT := tan_half_fov_pos
  have hab : Real.tan (0.5 * 1.2) / 6.05 < Real.tan (0.5 * 1.2) / 4.05 :=
    div_lt_div_of_pos_left hT (by norm_num) (by norm_num)
  have hp6 : 0 < Real.tan (0.5 * 1.2) / 6.05 := div_pos hT (by norm_num)
  have hp4 : 0 < Real.tan (0.5 * 1.2) / 4.05 := div_pos hT (by norm_num)
  refine ⟨⟨⟨rfl, rfl, rfl, rfl⟩, ⟨rfl, rfl, rfl, rfl⟩⟩, ?_, ?_⟩
  · rw [fov_c00, fov_c20, fov_c40, fov_c60, fov_c10, fov_c30, fov_c50, fov_c70,
      span4_aabb, span4_aabb,
      max_eq_right (by linarith), min_eq_left (by linarith),
      max_eq_right (by linarith), min_eq_left (by linarith)]
    linarith
  · rw [fov_c01, fov_c21, fov_c41, fov_c61, fov_c11, fov_c31, fov_c51, fov_c71,
      span4_abab, span4_abab,
      max_eq_right (by linarith), min_eq_left (by linarith),
      max_eq_right (by linarith), min_eq_left (by linarith)]
    linarith

/-- C4: for every Frustum and point whose homogeneous `w` under
`clip_from_query` is nonzero (the premise of "performing the perspective
divide"; when `w = 0` nalgebra skips the divide), `contains` returns true iff
all three divided coordinates lie strictly inside the open interval
`(-1, 1)`; consequently a point with any divided coordinate exactly `±1` is
reported NOT contained. -/
theorem C4_contains_iff_open_cube (fr : Frustum) (p : Vec3)
    (hw : homW fr.clip_from_query p ≠ 0) :
    (fr.contains p = true ↔
      ∀ i : Fin 3, -1 < projectivePoint fr.clip_from_query p i ∧
        projectivePoint fr.clip_from_query p i < 1) ∧
    (∀ i : Fin 3, (projectivePoint fr.clip_from_query p i = 1 ∨
        projectivePoint fr.clip_from_query p i = -1) → fr.contains p = false) := by
  have ht : transformPoint fr.clip_from_query p = projectivePoint fr.clip_from_query p := by
    funext j
    simp [transformPoint, projectivePoint, hw]
  have hiff : fr.contains p = true ↔
      ∀ i : Fin 3, -1 < projectivePoint fr.clip_from_query p i ∧
        projectivePoint fr.clip_from_query p i < 1 := by
    simp only [Frustum.contains, containsPoint, ht, decide_eq_true_eq,
      lt_min_iff, max_lt_iff]
    constructor
    · rintro ⟨⟨a0, a1, a2⟩, b0, b1, b2⟩ i
      fin_cases i
      · exact ⟨a0, b0⟩
      · exact ⟨a1, b1⟩
      · exact ⟨a2, b2⟩
    · intro h
      exact ⟨⟨(h 0).1, (h 1).1, (h 2).1⟩, (h 0).2, (h 1).2, (h 2).2⟩
  refine ⟨hiff, fun i hi => ?_⟩
  cases hb : fr.contains p
  · rfl
  · exfalso
    obtain ⟨hlt, hgt⟩ := hiff.mp hb i
    rcases hi with h1 | h1 <;> rw [h1] at hlt hgt <;> linarith

/-- Witness for C4: the frustum with identity matrices at the origin. -/
theorem C4_contains_iff_open_cube_witness :
    homW (Frustum.mk 1 1).clip_from_query ![0, 0, 0] ≠ 0 ∧
    (((Frustum.mk 1 1).contains ![0, 0, 0] = true ↔
       ∀ i : Fin 3, -1 < projectivePoint (Frustum.mk 1 1).clip_from_query ![0, 0, 0] i ∧
         projectivePoint (Frustum.mk 1 1).clip_from_query ![0, 0, 0] i < 1) ∧
     (∀ i : Fin 3, (projectivePoint (Frustum.mk 1 1).clip_from_query ![0, 0, 0] i = 1 ∨
         projectivePoint (Frustum.mk 1 1).clip_from_query ![0, 0, 0] i = -1) →
       (Frustum.mk 1 1).contains ![0, 0, 0] = false)) :=
  have hw : homW (Frustum.mk 1 1).clip_from_query ![0, 0, 0] ≠ 0 := by
    simp [homW, Matrix.one_apply]
  ⟨hw, C4_contains_iff_open_cube (Frustum.mk 1 1) ![0, 0, 0] hw⟩

/-- C6: `compute_corners` returns the images under `query_from_clip` (as a
projective point transform with perspective divide, whenever the homogeneous
`w` is nonzero) of the 8 clip-cube vertices, in the fixed order grouping the
`x = -1` face (indices 0–3) before the `x = +1` face (indices 4–7), with
vertices 0 and 4 differing only in the x clip coordinate, 0 and 2 only in y,
and 0 and 1 only in z. -/
theorem C6_corners_are_projected_vertices (fr : Frustum) :
    (∀ i : Fin 8, homW fr.query_from_clip (clipVertices i) ≠ 0 →
       fr.compute_corners i = projectivePoint fr.query_from_clip (clipVertices i)) ∧
    (∀ i : Fin 8, clipVertices i 0 = if (i : ℕ) < 4 then -1 else 1) ∧
    (clipVertices 0 1 = clipVertices 4 1 ∧ clipVertices 0 2 = clipVertices 4 2 ∧
      clipVertices 0 0 ≠ clipVertices 4 0) ∧
    (clipVertices 0 0 = clipVertices 2 0 ∧ clipVertices 0 2 = clipVertices 2 2 ∧
      clipVertices 0 1 ≠ clipVertices 2 1) ∧
    (clipVertices 0 0 = clipVertices 1 0 ∧ clipVertices 0 1 = clipVertices 1 1 ∧
      clipVertices 0 2 ≠ clipVertices 1 2) := by
  have key : ∀ v : Vec3, homW fr.query_from_clip v ≠ 0 →
      transformPoint fr.query_from_clip v = projectivePoint fr.query_from_clip v := by
    intro v hv
    funext j
    simp [transformPoint, projectivePoint, hv]
  refine ⟨?_, ?_, ⟨rfl, rfl, by norm_num [clipVertices]⟩,
    ⟨rfl, rfl, by norm_num [clipVertices]⟩, ⟨rfl, rfl, by norm_num [clipVertices]⟩⟩
  · intro i hwi
    fin_cases i <;> exact key _ hwi
  · intro i
    fin_cases i <;> norm_num [clipVertices]

/-- Witness for C6: the frustum with identity matrices. -/
theorem C6_corners_are_projected_vertices_witness :
    homW (Frustum.mk 1 1).query_from_clip (clipVertices 0) ≠ 0 ∧
    (Frustum.mk 1 1).compute_corners 0 =
      projectivePoint (Frustum.mk 1 1).query_from_clip (clipVertices 0) :=
  have hw : homW (Frustum.mk 1 1).query_from_clip (clipVertices 0) ≠ 0 := by
    simp [homW, Matrix.one_apply, clipVertices]
  ⟨hw, (C6_corners_are_projected_vertices (Frustum.mk 1 1)).1 0 hw⟩

/-- C7 (code evaluation): for EVERY frustum, the "Left side" and "right side"
face normals produced by `intersector()` are the same vector, since both are
computed as the normalized cross product of `edges[1]` and `edges[2]`. The
claim (and reference geometry) requires them to be distinct for an asymmetric
off-axis frustum, whose two side faces are not parallel. -/
theorem C7_left_right_normals_always_equal (fr : Frustum) :
    fr.intersector.face_normals[3]? = fr.intersector.face_normals[4]? := rfl

/-- C8: `Perspective::new` fails (asserts) exactly when `left > right` or
`bottom > top` or `near > far`; in particular it fails at
`(1, 0, -1, 1, 0.1, 10)`, and succeeds on every input satisfying all three
orderings. -/
theorem C8_new_precondition :
    (∀ l r b t n f : ℝ,
       Perspective.new l r b t n f = none ↔ (r < l ∨ t < b ∨ f < n)) ∧
    Perspective.new 1 0 (-1) 1 0.1 10 = none := by
  constructor
  · intro l r b t n f
    by_cases hc : l ≤ r ∧ b ≤ t ∧ n ≤ f
    · obtain ⟨h1, h2, h3⟩ := hc
      simp only [Perspective.new, if_pos (⟨h1, h2, h3⟩ : l ≤ r ∧ b ≤ t ∧ n ≤ f)]
      constructor
      · intro h
        exact Option.noConfusion h
      · rintro (h | h | h) <;> linarith
    · simp only [Perspective.new, if_neg hc]
      constructor
      · intro _
        by_contra hno
        push_neg at hno
        exact hc ⟨hno.1, hno.2.1, hno.2.2⟩
      · intro _
        trivial
  · simp only [Perspective.new, if_neg (by norm_num : ¬((1:ℝ) ≤ 0 ∧ (-1:ℝ) ≤ 1 ∧ (0.1:ℝ) ≤ 10))]

/-- C9: `from_matrix4` returns no instance exactly when the input matrix is
not invertible (in particular on the all-zero matrix), and on an invertible
input returns the frustum whose `clip_from_query` is the input and whose
`query_from_clip` is its two-sided inverse. -/
theorem C9_from_matrix4_spec :
    (∀ m : Mat4, Frustum.from_matrix4 m = none ↔ ¬ IsUnit m.det) ∧
    Frustum.from_matrix4 0 = none ∧
    (∀ (m : Mat4) (fr : Frustum), Frustum.from_matrix4 m = some fr →
       fr.clip_from_query = m ∧ fr.query_from_clip * m = 1 ∧
         m * fr.query_from_clip = 1) := by
  have hiff : ∀ m : Mat4, Frustum.from_matrix4 m = none ↔ ¬ IsUnit m.det := by
    intro m
    by_cases hd : m.det ≠ 0
    · simp [Frustum.from_matrix4, hd, isUnit_iff_ne_zero]
    · push_neg at hd
      simp [Frustum.from_matrix4, hd]
  refine ⟨hiff, ?_, ?_⟩
  · refine (hiff 0).mpr ?_
    rw [Matrix.det_zero ⟨0⟩]
    intro h
    simp at h
  · intro m fr h
    by_cases hd : m.det ≠ 0
    · simp [Frustum.from_matrix4, hd] at h
      rw [← h]
      exact ⟨rfl, Matrix.nonsing_inv_mul m (isUnit_iff_ne_zero.mpr hd),
        Matrix.mul_nonsing_inv m (isUnit_iff_ne_zero.mpr hd)⟩
    · simp [Frustum.from_matrix4, hd] at h

/-- Witness for C9 at the identity matrix. -/
theorem C9_from_matrix4_spec_witness :
    Frustum.from_matrix4 (1 : Mat4) = some ⟨(1 : Mat4)⁻¹, 1⟩ ∧
    ((⟨(1 : Mat4)⁻¹, 1⟩ : Frustum).clip_from_query = 1 ∧
     (⟨(1 : Mat4)⁻¹, 1⟩ : Frustum).query_from_clip * 1 = 1 ∧
     1 * (⟨(1 : Mat4)⁻¹, 1⟩ : Frustum).query_from_clip = 1) :=
  have h1 : Frustum.from_matrix4 (1 : Mat4) = some ⟨(1 : Mat4)⁻¹, 1⟩ := by
    simp [Frustum.from_matrix4]
  ⟨h1, C9_from_matrix4_spec.2.2 1 ⟨(1 : Mat4)⁻¹, 1⟩ h1⟩

/-- C10: `compute_edges` always returns exactly 6 edge directions and
`compute_face_normals` exactly 5 face normals, and each standalone accessor
returns exactly the corresponding field of `intersector()`. -/
theorem C10_edges_normals_exact (fr : Frustum) :
    fr.compute_edges.length = 6 ∧ fr.compute_face_normals.length = 5 ∧
    fr.compute_edges = fr.intersector.edges ∧
    fr.compute_face_normals = fr.intersector.face_normals :=
  ⟨rfl, rfl, rfl, rfl⟩

end PCV
